import Mathlib

/-!
Shallow embedding of the Dodona reporting protocol of `judge/dodona_command.py`
and of the image-diff helper of `judge/runtime.py` (dodona-edu/judge-turtle).

Blocks (`DodonaCommand` subclasses) are Python context managers that print a
start event on `__enter__` and (for most kinds) a close event on `__exit__`,
and translate a propagating `DodonaException` into message / escalate-status
events and close-field updates.  The embedding models field bags as ordered
association lists over a JSON-like value universe, the event stream as a list
of structured events (each carrying its wire `command` string via
`Event.command`), and nested `with` bodies as a small program type `Prog`
interpreted by `runProg`.
-/

/-- Dodona error type (`ErrorType` enum in `dodona_command.py`). -/
inductive ErrorType where
  | internal_error
  | compilation_error
  | memory_limit_exceeded
  | time_limit_exceeded
  | output_limit_exceeded
  | runtime_error
  | wrong
  | wrong_answer
  | correct
  | correct_answer
deriving DecidableEq, Repr

/-- Wire string of an `ErrorType` (the enum's string value). -/
def ErrorType.str : ErrorType → String
  | .internal_error => "internal error"
  | .compilation_error => "compilation error"
  | .memory_limit_exceeded => "memory limit exceeded"
  | .time_limit_exceeded => "time limit exceeded"
  | .output_limit_exceeded => "output limit exceeded"
  | .runtime_error => "runtime error"
  | .wrong => "wrong"
  | .wrong_answer => "wrong answer"
  | .correct => "correct"
  | .correct_answer => "correct answer"

/-- A Dodona status object (`status: dict[str, str]`, with its `"enum"` entry
holding an `ErrorType` and `"human"` a human-readable translation). -/
structure Status where
  enum : ErrorType
  human : String
deriving DecidableEq, Repr

/-- JSON-like values stored in start/close field bags (`SimpleNamespace`
attribute values in the Python source). -/
inductive Value where
  | str (s : String)
  | num (n : Int)
  | bool (b : Bool)
  | status (st : Status)
  | obj (fields : List (String × Value))

/-- An ordered field bag (`SimpleNamespace.__dict__` in the source). -/
abbrev Fields := List (String × Value)

/-- Set attribute `k` to `v` on a field bag: replace in place if present
(Python attribute assignment on a `SimpleNamespace`), else append. -/
def setField : Fields → String → Value → Fields
  | [], k, v => [(k, v)]
  | (k', v') :: rest, k, v =>
      if k' = k then (k, v) :: rest else (k', v') :: setField rest k v

/-- Look up attribute `k` in a field bag. -/
def lookupField : Fields → String → Option Value
  | [], _ => none
  | (k', v') :: rest, k => if k' = k then some v' else lookupField rest k

/-- The concrete `DodonaCommand` subclasses of `dodona_command.py`:
`Judgement`, `Tab`, `Context`, `TestCase`, `Test`, `Message`, `Annotation`
(the last one is called `annot` here; its wire name stays "annotation"). -/
inductive BlockClass where
  | judgement
  | tab
  | context
  | testcase
  | test
  | message
  | annot
deriving DecidableEq, Repr

/-- The classes a `DodonaException.recover_at` can name: any class of the
`DodonaCommand` hierarchy, including the abstract bases `DodonaCommand`,
`DodonaCommandWithAccepted` and `DodonaCommandWithStatus`. -/
inductive RecoverClass where
  | dodonaCommand
  | withAccepted
  | withStatus
  | judgement
  | tab
  | context
  | testcase
  | test
  | message
  | annot
deriving DecidableEq, Repr

/-- Python `isinstance(self, recover_at)` for a block instance of concrete
class `c`: true iff `c` is `r` or a subclass of `r`.  The hierarchy of the
source: `Judgement`, `Test` extend `DodonaCommandWithStatus`, which extends
`DodonaCommandWithAccepted`, which (like `Tab`, `Message`, `Annotation`)
extends `DodonaCommand`; `Context`, `TestCase` extend
`DodonaCommandWithAccepted`. -/
def isInstance (c : BlockClass) (r : RecoverClass) : Bool :=
  match r with
  | .dodonaCommand => true
  | .withAccepted =>
      match c with
      | .judgement | .context | .testcase | .test => true
      | _ => false
  | .withStatus =>
      match c with
      | .judgement | .test => true
      | _ => false
  | .judgement => c == .judgement
  | .tab => c == .tab
  | .context => c == .context
  | .testcase => c == .testcase
  | .test => c == .test
  | .message => c == .message
  | .annot => c == .annot

/-- Which `handle_dodona_exception` override a concrete class inherits:
the base one, `DodonaCommandWithAccepted`'s, or `DodonaCommandWithStatus`'s. -/
inductive HandlerLevel where
  | base
  | withAccepted
  | withStatus
deriving DecidableEq, Repr

/-- Handler override used by each concrete class (per the hierarchy above). -/
def handlerLevel : BlockClass → HandlerLevel
  | .judgement => .withStatus
  | .test => .withStatus
  | .context => .withAccepted
  | .testcase => .withAccepted
  | .tab => .base
  | .message => .base
  | .annot => .base

/-- `DodonaCommand.name()`: the lower-cased class name, used in the
`start-<name>` / `close-<name>` command strings. -/
def className : BlockClass → String
  | .judgement => "judgement"
  | .tab => "tab"
  | .context => "context"
  | .testcase => "testcase"
  | .test => "test"
  | .message => "message"
  | .annot => "annotation"

/-- A block instance: its class, its `start_args` (fixed at construction)
and its `close_args` (mutated during the body / by error handling). -/
structure Block where
  cls : BlockClass
  start_args : Fields
  close_args : Fields

/-- `DodonaCommand.__init__(**kwargs)`: record the kwargs as `start_args`,
start with an empty `close_args` namespace. -/
def mkBlock (cls : BlockClass) (kwargs : Fields) : Block :=
  { cls := cls, start_args := kwargs, close_args := [] }

/-- `TestCase.__init__(*args, **kwargs)`: a single positional argument is the
description; otherwise the keyword arguments form the description object. -/
def TestCase.init (args : List Value) (kwargs : Fields) : Block :=
  match args with
  | [a] => mkBlock .testcase [("description", a)]
  | _ => mkBlock .testcase [("description", Value.obj kwargs)]

/-- `Message.__init__(*args, **kwargs)`: a single positional argument is the
message; otherwise the keyword arguments form the message object. -/
def Message.init (args : List Value) (kwargs : Fields) : Block :=
  match args with
  | [a] => mkBlock .message [("message", a)]
  | _ => mkBlock .message [("message", Value.obj kwargs)]

/-- One structured record written to stdout.  `Event.command` recovers the
wire `command` string of each record. -/
inductive Event where
  | start (name : String) (fields : Fields)
  | close (name : String) (fields : Fields)
  | appendMessage (fields : Fields)
  | annotateCode (fields : Fields)
  | escalateStatus (status : Status)

/-- The `command` key of the JSON record an event is printed as. -/
def Event.command : Event → String
  | .start n _ => "start-" ++ n
  | .close n _ => "close-" ++ n
  | .appendMessage _ => "append-message"
  | .annotateCode _ => "annotate-code"
  | .escalateStatus _ => "escalate-status"

/-- `start_msg`: `{"command": "start-<name>", **start_args}` for ordinary
blocks; `Message` overrides it to an `append-message` record and
`Annotation` to an `annotate-code` record. -/
def startMsg (b : Block) : Event :=
  match b.cls with
  | .message => .appendMessage b.start_args
  | .annot => .annotateCode b.start_args
  | _ => .start (className b.cls) b.start_args

/-- `close_msg`: `{"command": "close-<name>", **close_args}`; `Message` and
`Annotation` override it to return `None` (print nothing on exit). -/
def closeMsg (b : Block) : Option Event :=
  match b.cls with
  | .message => none
  | .annot => none
  | _ => some (.close (className b.cls) b.close_args)

/-- The (zero or one) events printed for a block's close message. -/
def closeEvents (b : Block) : List Event :=
  (closeMsg b).toList

/-- A `DodonaException`: a status object, the class to recover at, whether an
`escalate-status` record must be printed when caught, and the optional
attached `Message` block built from the constructor's kwargs. -/
structure DodonaException where
  status : Status
  recover_at : RecoverClass
  escalate_status : Bool
  message : Option Block

/-- `DodonaException.__init__(status, recover_at=None, **kwargs)`: with no
explicit recover point the exception recovers at `Judgement` and does not
escalate; an explicit recover point sets `escalate_status = True`.  The
kwargs, when nonempty, become an attached `Message` block. -/
def mkException (st : Status) (recover_at : Option RecoverClass) (kwargs : Fields) :
    DodonaException :=
  { status := st
    recover_at := recover_at.getD RecoverClass.judgement
    escalate_status := recover_at.isSome
    message := if kwargs.length > 0 then some (Message.init [] kwargs) else none }

/-- Result of `handle_dodona_exception`: the block with updated
`close_args`, the (possibly message-stripped) exception, the records printed
while handling, and whether the exception was claimed (`True` = do not
propagate). -/
structure HandleResult where
  block : Block
  exc : DodonaException
  events : List Event
  handled : Bool

/-- `DodonaCommand.handle_dodona_exception`: print the exception's attached
message (a `Message` block entered and immediately exited), strip it from the
exception, then claim the exception iff `isinstance(self, recover_at)`,
printing an `escalate-status` record when claiming with
`escalate_status = True`. -/
def handleBase (b : Block) (e : DodonaException) : HandleResult :=
  let noteEvs : List Event :=
    match e.message with
    | some m => [startMsg m]
    | none => []
  let e' : DodonaException := { e with message := none }
  if isInstance b.cls e.recover_at then
    { block := b
      exc := e'
      events := noteEvs ++ (if e.escalate_status then [.escalateStatus e.status] else [])
      handled := true }
  else
    { block := b, exc := e', events := noteEvs, handled := false }

/-- `DodonaCommandWithAccepted.handle_dodona_exception`: set
`close_args.accepted` from the exception's status, then defer to the base
handler. -/
def handleWithAccepted (b : Block) (e : DodonaException) : HandleResult :=
  let accepted :=
    e.status.enum == ErrorType.correct || e.status.enum == ErrorType.correct_answer
  handleBase { b with close_args := setField b.close_args "accepted" (.bool accepted) } e

/-- `DodonaCommandWithStatus.handle_dodona_exception`: set
`close_args.status` to the exception's status, then defer to the
with-accepted handler. -/
def handleWithStatus (b : Block) (e : DodonaException) : HandleResult :=
  handleWithAccepted { b with close_args := setField b.close_args "status" (.status e.status) } e

/-- Virtual dispatch of `handle_dodona_exception` on the block's class. -/
def handleDodonaException (b : Block) (e : DodonaException) : HandleResult :=
  match handlerLevel b.cls with
  | .base => handleBase b e
  | .withAccepted => handleWithAccepted b e
  | .withStatus => handleWithStatus b e

/-- An exception propagating out of a `with` body: the Dodona failure signal,
or any other Python exception. -/
inductive Exc where
  | dodona (e : DodonaException)
  | other

/-- `DodonaCommand.__exit__`: if the body raised a `DodonaException`, run
`handle_dodona_exception` (printing its records); always print the close
message afterwards; suppress the exception iff it was claimed. -/
def exitBlock (b : Block) (exc : Option Exc) : List Event × Option Exc :=
  match exc with
  | some (.dodona e) =>
      let r := handleDodonaException b e
      (r.events ++ closeEvents r.block, if r.handled then none else some (.dodona r.exc))
  | some .other => (closeEvents b, some .other)
  | none => (closeEvents b, none)

/-- A `with`-block body: nested blocks in sequence, possibly raising a
`DodonaException` (via its constructor's arguments) or a foreign exception. -/
inductive Prog where
  | skip
  | seq (p q : Prog)
  | block (cls : BlockClass) (kwargs : Fields) (body : Prog)
  | raiseExc (st : Status) (recover_at : Option RecoverClass) (kwargs : Fields)
  | raiseOther

/-- Run a body: emit the start record on entering each block, run its body,
then run `__exit__`; a propagating exception skips the rest of a sequence. -/
def runProg : Prog → List Event × Option Exc
  | .skip => ([], none)
  | .raiseExc st rec kw => ([], some (.dodona (mkException st rec kw)))
  | .raiseOther => ([], some .other)
  | .seq p q =>
      match runProg p with
      | (tr, some e) => (tr, some e)
      | (tr, none) => (tr ++ (runProg q).1, (runProg q).2)
  | .block cls kwargs body =>
      let b := mkBlock cls kwargs
      (startMsg b :: (runProg body).1 ++ (exitBlock b (runProg body).2).1,
       (exitBlock b (runProg body).2).2)

/-- Nest a body inside a list of blocks, outermost first:
`nestBlocks [(c1,a1),(c2,a2)] p` is `with c1(a1): with c2(a2): p`. -/
def nestBlocks : List (BlockClass × Fields) → Prog → Prog
  | [], p => p
  | (c, a) :: ws, p => Prog.block c a (nestBlocks ws p)

/-- The `accepted` boolean `DodonaCommandWithAccepted` derives from a status:
true iff the status enum is `CORRECT` or `CORRECT_ANSWER`. -/
def acceptedOf (st : Status) : Bool :=
  st.enum == ErrorType.correct || st.enum == ErrorType.correct_answer

/-- The `close_args` a block of class `c` (with empty `close_args`) holds
after its `handle_dodona_exception` ran on an exception with status `st`. -/
def levelCloseFields (c : BlockClass) (st : Status) : Fields :=
  match handlerLevel c with
  | .base => []
  | .withAccepted => [("accepted", Value.bool (acceptedOf st))]
  | .withStatus => [("status", Value.status st), ("accepted", Value.bool (acceptedOf st))]

/-- The close records printed by a block of class `c` exiting on an exception
with status `st` (none for `Message` / `Annotation`). -/
def closeEventsAfter (c : BlockClass) (st : Status) : List Event :=
  closeEvents { cls := c, start_args := [], close_args := levelCloseFields c st }

/-- Start records of a list of blocks, outermost first. -/
def startsOf : List (BlockClass × Fields) → List Event
  | [] => []
  | (c, a) :: ws => startMsg (mkBlock c a) :: startsOf ws

/-- Close records printed while an exception with status `st` unwinds through
a list of blocks (innermost closes first). -/
def closesOf : List (BlockClass × Fields) → Status → List Event
  | [], _ => []
  | (c, _) :: ws, st => closesOf ws st ++ closeEventsAfter c st

/-- The records printed for an exception's attached message. -/
def noteEvsOf (e : DodonaException) : List Event :=
  match e.message with
  | some m => [startMsg m]
  | none => []

/-- `exception.message = None`: the exception after its message was printed. -/
def stripNote (e : DodonaException) : DodonaException :=
  { e with message := none }

/-- Is this record an `escalate-status` record? -/
def isEscalateEvent : Event → Bool
  | .escalateStatus _ => true
  | _ => false

/-- Is this record a `close-*` record? -/
def isCloseEvent : Event → Bool
  | .close _ _ => true
  | _ => false

/-- Is this record an `append-message` record? -/
def isAppendEvent : Event → Bool
  | .appendMessage _ => true
  | _ => false

/-- Does this record open or close a nesting level (`start-*` / `close-*`)? -/
def isNestingEvent : Event → Bool
  | .start _ _ => true
  | .close _ _ => true
  | _ => false

/-- Run the well-nestedness checker over a record stream: `start-<n>` pushes
`n` on the stack of open blocks, `close-<n>` pops a matching `n` (failing
with `none` on a mismatch or an empty stack); other records are neutral. -/
def stackRun : List Event → List String → Option (List String)
  | [], s => some s
  | Event.start n _ :: es, s => stackRun es (n :: s)
  | Event.close n _ :: es, s =>
      match s with
      | [] => none
      | m :: s' => if n = m then stackRun es s' else none
  | Event.appendMessage _ :: es, s => stackRun es s
  | Event.annotateCode _ :: es, s => stackRun es s
  | Event.escalateStatus _ :: es, s => stackRun es s

/-- A raster image as its flat sequence of 8-bit samples (pixel values of all
bands), as histogrammed by PIL. -/
abbrev RasterImage := List Nat

/-- `ImageChops.difference`: the pointwise absolute difference of two
equally-sized images. -/
def difference (image1 image2 : RasterImage) : RasterImage :=
  List.zipWith (fun a b => max a b - min a b) image1 image2

/-- `Image.histogram()`: for each sample value `0..255`, the number of
samples of the image holding that value. -/
def histogram (image : RasterImage) : List Nat :=
  (List.range 256).map (fun v => (image.filter (fun p => p == v)).length)

/-- `diff_images` of `judge/runtime.py`: the sum of the histogram of the
pointwise difference of the two images. -/
def diff_images (image1 image2 : RasterImage) : Nat :=
  (histogram (difference image1 image2)).sum

theorem lookupField_setField_self (f : Fields) (k : String) (v : Value) :
    lookupField (setField f k v) k = some v := by
  induction f with
  | nil => simp [setField, lookupField]
  | cons kv rest ih =>
      obtain ⟨k', v'⟩ := kv
      by_cases h : k' = k
      · simp [setField, lookupField, h]
      · simp [setField, lookupField, h, ih]

theorem handle_handled (b : Block) (e : DodonaException) :
    (handleDodonaException b e).handled = isInstance b.cls e.recover_at := by
  unfold handleDodonaException handleWithStatus handleWithAccepted handleBase
  cases h : handlerLevel b.cls <;> dsimp <;> split <;> simp_all

theorem handle_exc (b : Block) (e : DodonaException) :
    (handleDodonaException b e).exc = stripNote e := by
  unfold handleDodonaException handleWithStatus handleWithAccepted handleBase stripNote
  cases h : handlerLevel b.cls <;> dsimp <;> split <;> rfl

theorem handle_events (b : Block) (e : DodonaException) :
    (handleDodonaException b e).events =
      noteEvsOf e ++
        (if isInstance b.cls e.recover_at && e.escalate_status then
          [.escalateStatus e.status] else []) := by
  unfold handleDodonaException handleWithStatus handleWithAccepted handleBase noteEvsOf
  cases h : handlerLevel b.cls <;> dsimp <;> split <;>
    rename_i hinst <;> simp [hinst]

theorem handle_block_cls (b : Block) (e : DodonaException) :
    (handleDodonaException b e).block.cls = b.cls := by
  unfold handleDodonaException handleWithStatus handleWithAccepted handleBase
  cases h : handlerLevel b.cls <;> dsimp <;> split <;> rfl

theorem handle_mkBlock_close_args (c : BlockClass) (a : Fields) (e : DodonaException) :
    (handleDodonaException (mkBlock c a) e).block.close_args = levelCloseFields c e.status := by
  unfold handleDodonaException handleWithStatus handleWithAccepted handleBase
    levelCloseFields mkBlock acceptedOf setField
  cases c <;> dsimp [handlerLevel] <;> split <;> rfl

theorem exitBlock_none (b : Block) : exitBlock b none = (closeEvents b, none) := rfl

theorem exitBlock_other (b : Block) :
    exitBlock b (some .other) = (closeEvents b, some .other) := rfl

theorem exitBlock_dodona (b : Block) (e : DodonaException) :
    exitBlock b (some (.dodona e)) =
      ((handleDodonaException b e).events ++ closeEvents (handleDodonaException b e).block,
       if (handleDodonaException b e).handled then none
       else some (.dodona (handleDodonaException b e).exc)) := rfl

theorem runProg_block (c : BlockClass) (a : Fields) (body : Prog) :
    runProg (.block c a body) =
      (startMsg (mkBlock c a) :: (runProg body).1 ++ (exitBlock (mkBlock c a) (runProg body).2).1,
       (exitBlock (mkBlock c a) (runProg body).2).2) := rfl

theorem stackRun_append_neutral (l : List Event) (hl : ∀ ev ∈ l, isNestingEvent ev = false) :
    ∀ s rest, stackRun (l ++ rest) s = stackRun rest s := by
  induction l with
  | nil => intro s rest; rfl
  | cons ev l ih =>
      intro s rest
      have hev := hl ev (by simp)
      have hl' : ∀ ev ∈ l, isNestingEvent ev = false := fun x hx => hl x (by simp [hx])
      cases ev with
      | start n f => simp [isNestingEvent] at hev
      | close n f => simp [isNestingEvent] at hev
      | appendMessage f => simpa [stackRun] using ih hl' s rest
      | annotateCode f => simpa [stackRun] using ih hl' s rest
      | escalateStatus st => simpa [stackRun] using ih hl' s rest

/-- A well-formed propagating exception: its attached message, if any, is a
`Message` block (every exception the interpreter builds is of this shape). -/
def excOk : Option Exc → Prop
  | some (.dodona e) => ∀ m, e.message = some m → m.cls = BlockClass.message
  | _ => True

theorem noteEvsOf_neutral (e : DodonaException)
    (he : ∀ m, e.message = some m → m.cls = BlockClass.message) :
    ∀ ev ∈ noteEvsOf e, isNestingEvent ev = false := by
  intro ev hev
  unfold noteEvsOf at hev
  cases hm : e.message with
  | none => simp [hm] at hev
  | some m =>
      rw [hm] at hev
      simp at hev
      subst hev
      have := he m hm
      simp [startMsg, this, isNestingEvent]

theorem handle_events_neutral (b : Block) (e : DodonaException)
    (he : ∀ m, e.message = some m → m.cls = BlockClass.message) :
    ∀ ev ∈ (handleDodonaException b e).events, isNestingEvent ev = false := by
  intro ev hev
  rw [handle_events] at hev
  rcases List.mem_append.mp hev with h | h
  · exact noteEvsOf_neutral e he ev h
  · split at h
    · simp at h; subst h; rfl
    · simp at h

theorem stackRun_blockEvents (c : BlockClass) (sa : Fields) (b' : Block)
    (hcls : b'.cls = c) (tr mid : List Event)
    (htr : ∀ s rest, stackRun (tr ++ rest) s = stackRun rest s)
    (hmid : ∀ ev ∈ mid, isNestingEvent ev = false) :
    ∀ s rest, stackRun ((startMsg (mkBlock c sa) :: (tr ++ (mid ++ closeEvents b'))) ++ rest) s
      = stackRun rest s := by
  intro s rest
  have hmid' := stackRun_append_neutral mid hmid
  rw [show (startMsg (mkBlock c sa) :: (tr ++ (mid ++ closeEvents b'))) ++ rest
        = startMsg (mkBlock c sa) :: (tr ++ (mid ++ (closeEvents b' ++ rest))) by simp]
  cases c <;>
    (simp only [startMsg, mkBlock, stackRun]
     rw [htr, hmid']
     simp [closeEvents, closeMsg, hcls, className, stackRun])

theorem runProg_seq (p q : Prog) :
    runProg (.seq p q) =
      match runProg p with
      | (tr, some e) => (tr, some e)
      | (tr, none) => (tr ++ (runProg q).1, (runProg q).2) := rfl

theorem runProg_stackNeutral (p : Prog) :
    (∀ s rest, stackRun ((runProg p).1 ++ rest) s = stackRun rest s) ∧ excOk (runProg p).2 := by
  induction p with
  | skip => exact ⟨fun s rest => rfl, trivial⟩
  | raiseOther => exact ⟨fun s rest => rfl, trivial⟩
  | raiseExc st rec kw =>
      refine ⟨fun s rest => rfl, ?_⟩
      intro m hm
      unfold mkException at hm
      dsimp at hm
      split at hm
      · simp at hm; subst hm; rfl
      · simp at hm
  | seq p q ihp ihq =>
      obtain ⟨htrp, hexcp⟩ := ihp
      obtain ⟨htrq, hexcq⟩ := ihq
      rcases hp : runProg p with ⟨tr, exc⟩
      rw [hp] at htrp hexcp
      simp only at htrp hexcp
      cases exc with
      | none =>
          rw [runProg_seq, hp]
          refine ⟨fun s rest => ?_, hexcq⟩
          dsimp
          rw [List.append_assoc, htrp, htrq]
      | some e =>
          rw [runProg_seq, hp]
          exact ⟨htrp, hexcp⟩
  | block c a body ih =>
      obtain ⟨htr, hexc⟩ := ih
      rcases hb : runProg body with ⟨tr, exc⟩
      rw [hb] at htr hexc
      simp only at htr hexc
      rw [runProg_block, hb]
      cases exc with
      | none =>
          refine ⟨fun s rest => ?_, trivial⟩
          have h := stackRun_blockEvents c a (mkBlock c a) rfl tr [] htr (by simp) s rest
          simpa using h
      | some exc' =>
          cases exc' with
          | other =>
              refine ⟨fun s rest => ?_, trivial⟩
              have h := stackRun_blockEvents c a (mkBlock c a) rfl tr [] htr (by simp) s rest
              simpa using h
          | dodona e =>
              have he : ∀ m, e.message = some m → m.cls = BlockClass.message := hexc
              rw [exitBlock_dodona]
              constructor
              · intro s rest
                exact stackRun_blockEvents c a (handleDodonaException (mkBlock c a) e).block
                  (handle_block_cls _ _) tr (handleDodonaException (mkBlock c a) e).events htr
                  (handle_events_neutral _ _ he) s rest
              · dsimp
                split
                · trivial
                · rw [handle_exc]
                  intro m hm
                  simp [stripNote] at hm

/-- C1: over every program of properly nested block bodies (including ones
that raise failure signals), the emitted event stream is well-nested: the
stack checker that pushes each `start-<kind>` record and pops the matching
`close-<kind>` record runs through the whole stream without a mismatch and
ends with an empty stack, so every block emits exactly one start record and
at most one close record, the start strictly before the close, with a
parent's start before all of its descendants' records and every descendant's
records before the parent's close. -/
theorem C1_event_stream_well_nested (p : Prog) : stackRun (runProg p).1 [] = some [] := by
  have h := (runProg_stackNeutral p).1 [] []
  simpa using h

theorem stripNote_status (e : DodonaException) : (stripNote e).status = e.status := rfl

theorem stripNote_recover_at (e : DodonaException) :
    (stripNote e).recover_at = e.recover_at := rfl

theorem stripNote_escalate (e : DodonaException) :
    (stripNote e).escalate_status = e.escalate_status := rfl

theorem noteEvsOf_stripNote (e : DodonaException) : noteEvsOf (stripNote e) = [] := rfl

theorem stripNote_idem (e : DodonaException) : stripNote (stripNote e) = stripNote e := rfl

theorem mkException_status (st : Status) (rec : Option RecoverClass) (kw : Fields) :
    (mkException st rec kw).status = st := rfl

theorem closeEvents_ignores_start (cls : BlockClass) (sa sa' ca : Fields) :
    closeEvents ⟨cls, sa, ca⟩ = closeEvents ⟨cls, sa', ca⟩ := by
  cases cls <;> rfl

theorem closeEvents_handle (c : BlockClass) (a : Fields) (e : DodonaException) :
    closeEvents (handleDodonaException (mkBlock c a) e).block = closeEventsAfter c e.status := by
  have h1 := handle_block_cls (mkBlock c a) e
  have h2 := handle_mkBlock_close_args c a e
  rcases hb : (handleDodonaException (mkBlock c a) e).block with ⟨cls, sa, ca⟩
  rw [hb] at h1 h2
  dsimp [mkBlock] at h1 h2
  subst h1
  subst h2
  unfold closeEventsAfter
  exact closeEvents_ignores_start _ sa [] _

theorem exit_unwind (c : BlockClass) (a : Fields) (e : DodonaException)
    (hc : isInstance c e.recover_at = false) :
    exitBlock (mkBlock c a) (some (.dodona e)) =
      (noteEvsOf e ++ closeEventsAfter c e.status, some (.dodona (stripNote e))) := by
  rw [exitBlock_dodona, handle_events, handle_exc, closeEvents_handle, handle_handled]
  simp [mkBlock, hc]

theorem exit_catch (c : BlockClass) (a : Fields) (e : DodonaException)
    (hc : isInstance c e.recover_at = true) :
    exitBlock (mkBlock c a) (some (.dodona e)) =
      (noteEvsOf e ++ (if e.escalate_status then [Event.escalateStatus e.status] else []) ++
        closeEventsAfter c e.status, none) := by
  rw [exitBlock_dodona, handle_events, handle_exc, closeEvents_handle, handle_handled]
  simp [mkBlock, hc, List.append_assoc]

/-- Unwinding: a `DodonaException` raised inside a stack of blocks none of
which is an instance of its recover class prints the start records of the
blocks, the exception's attached message at the innermost block, and the
close records (with per-level `accepted`/`status` close-field bookkeeping)
from the inside out, and propagates out with its message stripped. -/
theorem runProg_unwind (ws : List (BlockClass × Fields)) (st : Status)
    (rec : Option RecoverClass) (kw : Fields)
    (h : ∀ w ∈ ws, isInstance w.1 (mkException st rec kw).recover_at = false) :
    runProg (nestBlocks ws (.raiseExc st rec kw)) =
      (startsOf ws ++ (if ws.isEmpty then [] else noteEvsOf (mkException st rec kw)) ++
        closesOf ws st,
       some (.dodona (if ws.isEmpty then mkException st rec kw
                      else stripNote (mkException st rec kw)))) := by
  induction ws with
  | nil => simp [nestBlocks, runProg, startsOf, closesOf]
  | cons w ws ih =>
      obtain ⟨c, a⟩ := w
      have hc : isInstance c (mkException st rec kw).recover_at = false := h (c, a) (by simp)
      have hrest : ∀ w ∈ ws, isInstance w.1 (mkException st rec kw).recover_at = false :=
        fun w hw => h w (by simp [hw])
      rcases ws with _ | ⟨w', ws'⟩
      · rw [show nestBlocks [(c, a)] (.raiseExc st rec kw)
              = .block c a (nestBlocks [] (.raiseExc st rec kw)) from rfl,
           runProg_block, ih hrest]
        simp only [List.isEmpty_nil, if_true]
        rw [exit_unwind c a (mkException st rec kw) hc]
        simp [startsOf, closesOf, mkException_status]
      · rw [show nestBlocks ((c, a) :: w' :: ws') (.raiseExc st rec kw)
              = .block c a (nestBlocks (w' :: ws') (.raiseExc st rec kw)) from rfl,
           runProg_block, ih hrest]
        simp only [List.isEmpty_cons, if_false, Bool.false_eq_true]
        rw [exit_unwind c a (stripNote (mkException st rec kw)) hc]
        rw [stripNote_status, mkException_status, noteEvsOf_stripNote, stripNote_idem]
        simp [startsOf, closesOf, List.append_assoc]

theorem mkException_escalate (st : Status) (rec : Option RecoverClass) (kw : Fields) :
    (mkException st rec kw).escalate_status = rec.isSome := rfl

/-- A full catch: a block of class `m` matching the exception's recover class
encloses wrapper blocks `ws` (none matching) around the raise of a
`DodonaException`.  The whole run emits: the start records outermost-in, the
exception's message at the innermost block, the wrapper close records
innermost-out, an `escalate-status` record iff the recover point was
explicit, and finally `m`'s close record; the exception does not propagate
out. -/
theorem runProg_root (m : BlockClass) (margs : Fields) (ws : List (BlockClass × Fields))
    (st : Status) (rec : Option RecoverClass) (kw : Fields)
    (hws : ∀ w ∈ ws, isInstance w.1 (mkException st rec kw).recover_at = false)
    (hm : isInstance m (mkException st rec kw).recover_at = true) :
    runProg (.block m margs (nestBlocks ws (.raiseExc st rec kw))) =
      (startMsg (mkBlock m margs) ::
        (startsOf ws ++
          (if ws.isEmpty then [] else noteEvsOf (mkException st rec kw)) ++
          closesOf ws st ++
          (if ws.isEmpty then noteEvsOf (mkException st rec kw) else []) ++
          (if rec.isSome then [Event.escalateStatus st] else []) ++
          closeEventsAfter m st),
       none) := by
  rw [runProg_block, runProg_unwind ws st rec kw hws]
  rcases ws with _ | ⟨w', ws'⟩
  · simp only [List.isEmpty_nil, if_true]
    rw [exit_catch m margs (mkException st rec kw) hm]
    rw [mkException_status, mkException_escalate]
    simp [startsOf, closesOf, List.append_assoc]
  · simp only [List.isEmpty_cons, if_false, Bool.false_eq_true]
    rw [exit_catch m margs (stripNote (mkException st rec kw)) hm]
    rw [stripNote_status, mkException_status, noteEvsOf_stripNote, stripNote_escalate,
      mkException_escalate]
    simp [List.append_assoc]

theorem startMsg_not_escalate (b : Block) : isEscalateEvent (startMsg b) = false := by
  rcases b with ⟨cls, sa, ca⟩
  cases cls <;> rfl

theorem startMsg_not_close (b : Block) : isCloseEvent (startMsg b) = false := by
  rcases b with ⟨cls, sa, ca⟩
  cases cls <;> rfl

theorem filter_startsOf_escalate (ws : List (BlockClass × Fields)) :
    (startsOf ws).filter isEscalateEvent = [] := by
  induction ws with
  | nil => rfl
  | cons w ws ih =>
      obtain ⟨c, a⟩ := w
      simp [startsOf, List.filter_cons, startMsg_not_escalate, ih]

theorem filter_startsOf_close (ws : List (BlockClass × Fields)) :
    (startsOf ws).filter isCloseEvent = [] := by
  induction ws with
  | nil => rfl
  | cons w ws ih =>
      obtain ⟨c, a⟩ := w
      simp [startsOf, List.filter_cons, startMsg_not_close, ih]

theorem filter_closeEventsAfter_escalate (c : BlockClass) (st : Status) :
    (closeEventsAfter c st).filter isEscalateEvent = [] := by
  cases c <;> rfl

theorem filter_closeEventsAfter_append (c : BlockClass) (st : Status) :
    (closeEventsAfter c st).filter isAppendEvent = [] := by
  cases c <;> rfl

theorem filter_closeEventsAfter_close (c : BlockClass) (st : Status) :
    (closeEventsAfter c st).filter isCloseEvent = closeEventsAfter c st := by
  cases c <;> rfl

theorem filter_closesOf_escalate (ws : List (BlockClass × Fields)) (st : Status) :
    (closesOf ws st).filter isEscalateEvent = [] := by
  induction ws with
  | nil => rfl
  | cons w ws ih =>
      obtain ⟨c, a⟩ := w
      simp [closesOf, List.filter_append, filter_closeEventsAfter_escalate, ih]

theorem filter_closesOf_append (ws : List (BlockClass × Fields)) (st : Status) :
    (closesOf ws st).filter isAppendEvent = [] := by
  induction ws with
  | nil => rfl
  | cons w ws ih =>
      obtain ⟨c, a⟩ := w
      simp [closesOf, List.filter_append, filter_closeEventsAfter_append, ih]

theorem filter_closesOf_close (ws : List (BlockClass × Fields)) (st : Status) :
    (closesOf ws st).filter isCloseEvent = closesOf ws st := by
  induction ws with
  | nil => rfl
  | cons w ws ih =>
      obtain ⟨c, a⟩ := w
      simp [closesOf, List.filter_append, filter_closeEventsAfter_close, ih]

theorem filter_noteEvsOf_escalate (e : DodonaException) :
    (noteEvsOf e).filter isEscalateEvent = [] := by
  unfold noteEvsOf
  cases e.message with
  | none => rfl
  | some m => simp [List.filter_cons, startMsg_not_escalate]

theorem filter_noteEvsOf_close (e : DodonaException) :
    (noteEvsOf e).filter isCloseEvent = [] := by
  unfold noteEvsOf
  cases e.message with
  | none => rfl
  | some m => simp [List.filter_cons, startMsg_not_close]

theorem filter_ite (p : Event → Bool) (c : Prop) [Decidable c] (A B : List Event) :
    (if c then A else B).filter p = if c then A.filter p else B.filter p := by
  split <;> rfl

/-- C3: a failure signal raised with no explicit recover point, at any
nesting depth of non-Root blocks inside a Root (`Judgement`) block, is caught
by the Root block (nothing propagates out), no `escalate-status` record is
emitted anywhere, and Root's close record carries the signal's status object
in its `status` field. -/
theorem C3_default_recover_caught_at_root (margs : Fields) (ws : List (BlockClass × Fields))
    (st : Status) (kw : Fields) (hws : ∀ w ∈ ws, w.1 ≠ BlockClass.judgement) :
    (runProg (.block .judgement margs (nestBlocks ws (.raiseExc st none kw)))).2 = none ∧
    (runProg (.block .judgement margs
        (nestBlocks ws (.raiseExc st none kw)))).1.filter isEscalateEvent = [] ∧
    (runProg (.block .judgement margs (nestBlocks ws (.raiseExc st none kw)))).1.getLast? =
      some (Event.close "judgement"
        [("status", Value.status st), ("accepted", Value.bool (acceptedOf st))]) := by
  have hws' : ∀ w ∈ ws, isInstance w.1 (mkException st none kw).recover_at = false := by
    intro w hw
    show (w.1 == BlockClass.judgement) = false
    exact beq_eq_false_iff_ne.mpr (hws w hw)
  have hm : isInstance BlockClass.judgement (mkException st none kw).recover_at = true := rfl
  rw [runProg_root BlockClass.judgement margs ws st none kw hws' hm]
  refine ⟨rfl, ?_, ?_⟩
  · simp [List.filter_cons, List.filter_append, startMsg_not_escalate,
      filter_startsOf_escalate, filter_closesOf_escalate, filter_closeEventsAfter_escalate,
      filter_noteEvsOf_escalate, filter_ite, Option.isSome]
  · rw [show closeEventsAfter BlockClass.judgement st
          = [Event.close "judgement"
              [("status", Value.status st), ("accepted", Value.bool (acceptedOf st))]] from rfl]
    rw [← List.cons_append, List.getLast?_concat]

theorem C3_witness :
    (runProg (.block .judgement [] (nestBlocks [(BlockClass.context, [])]
        (.raiseExc ⟨ErrorType.wrong, "wrong"⟩ none [])))).2 = none ∧
    (runProg (.block .judgement [] (nestBlocks [(BlockClass.context, [])]
        (.raiseExc ⟨ErrorType.wrong, "wrong"⟩ none [])))).1.filter isEscalateEvent = [] ∧
    (runProg (.block .judgement [] (nestBlocks [(BlockClass.context, [])]
        (.raiseExc ⟨ErrorType.wrong, "wrong"⟩ none [])))).1.getLast? =
      some (Event.close "judgement"
        [("status", Value.status ⟨ErrorType.wrong, "wrong"⟩),
         ("accepted", Value.bool (acceptedOf ⟨ErrorType.wrong, "wrong"⟩))]) :=
  C3_default_recover_caught_at_root [] [(BlockClass.context, [])] ⟨ErrorType.wrong, "wrong"⟩ []
    (by decide)

/-- C4 counterexample: with recover point `Tab`, raising inside
`Tab ▸ Context`, the intermediate `Context` block (between the raise site and
the matching block) emits no `escalate-status` record at all — its exit
prints only its close record — and the whole run contains exactly one
`escalate-status` record, printed at the matching `Tab` block.  So it is
false that every block between the raise site and the matching block,
including the matching block, emits an `escalate-status` record (that would
require two here). -/
theorem C4_counterexample :
    (runProg (.block .tab [] (.block .context []
        (.raiseExc ⟨ErrorType.wrong, "wrong"⟩ (some RecoverClass.tab) [])))).1 =
      [Event.start "tab" [], Event.start "context" [],
       Event.close "context" [("accepted", Value.bool false)],
       Event.escalateStatus ⟨ErrorType.wrong, "wrong"⟩,
       Event.close "tab" []] ∧
    ((runProg (.block .tab [] (.block .context []
        (.raiseExc ⟨ErrorType.wrong, "wrong"⟩ (some RecoverClass.tab) [])))).1.filter
      isEscalateEvent).length = 1 :=
  ⟨rfl, rfl⟩

/-- C4 amended: for a failure signal raised with an explicit recover point,
only the block matching the recover point emits an `escalate-status` record
(exactly one, carrying the signal's status); the blocks between the raise
site and the matching block emit none. -/
theorem C4_amended_escalate_only_at_match (m : BlockClass) (margs : Fields)
    (ws : List (BlockClass × Fields)) (st : Status) (rc : RecoverClass) (kw : Fields)
    (hws : ∀ w ∈ ws, isInstance w.1 rc = false) (hm : isInstance m rc = true) :
    (runProg (.block m margs (nestBlocks ws (.raiseExc st (some rc) kw)))).1.filter
      isEscalateEvent = [Event.escalateStatus st] := by
  rw [runProg_root m margs ws st (some rc) kw hws hm]
  simp [List.filter_cons, List.filter_append, startMsg_not_escalate,
    filter_startsOf_escalate, filter_closesOf_escalate, filter_closeEventsAfter_escalate,
    filter_noteEvsOf_escalate, filter_ite, Option.isSome,
    show isEscalateEvent (Event.escalateStatus st) = true from rfl]

theorem C4_amended_witness :
    (runProg (.block .tab [] (nestBlocks [(BlockClass.context, [])]
        (.raiseExc ⟨ErrorType.wrong, "wrong"⟩ (some RecoverClass.tab) [])))).1.filter
      isEscalateEvent = [Event.escalateStatus ⟨ErrorType.wrong, "wrong"⟩] :=
  C4_amended_escalate_only_at_match .tab [] [(BlockClass.context, [])]
    ⟨ErrorType.wrong, "wrong"⟩ RecoverClass.tab [] (by decide) (by decide)

/-- C5: a failure signal raised with an explicit recover point inside further
nested blocks produces exactly one `escalate-status` record, and the close
records printed while it unwinds are exactly those of the traversed blocks
with their per-level bookkeeping fields: every with-accepted block's close
record gets its `accepted` field and every with-status block's close record
additionally its `status` field (see `levelCloseFields`), at every level
between the raise site and the matching block inclusive. -/
theorem C5_explicit_recover_updates_every_level (m : BlockClass) (margs : Fields)
    (ws : List (BlockClass × Fields)) (st : Status) (rc : RecoverClass) (kw : Fields)
    (hws : ∀ w ∈ ws, isInstance w.1 rc = false) (hm : isInstance m rc = true) :
    ((runProg (.block m margs (nestBlocks ws (.raiseExc st (some rc) kw)))).1.filter
      isEscalateEvent).length = 1 ∧
    (runProg (.block m margs (nestBlocks ws (.raiseExc st (some rc) kw)))).1.filter
      isCloseEvent = closesOf ws st ++ closeEventsAfter m st := by
  rw [runProg_root m margs ws st (some rc) kw hws hm]
  constructor
  · simp [List.filter_cons, List.filter_append, startMsg_not_escalate,
      filter_startsOf_escalate, filter_closesOf_escalate, filter_closeEventsAfter_escalate,
      filter_noteEvsOf_escalate, filter_ite, Option.isSome,
      show isEscalateEvent (Event.escalateStatus st) = true from rfl]
  · simp [List.filter_cons, List.filter_append, startMsg_not_close,
      filter_startsOf_close, filter_closesOf_close, filter_closeEventsAfter_close,
      filter_noteEvsOf_close, filter_ite, Option.isSome,
      show isCloseEvent (Event.escalateStatus st) = false from rfl]

theorem C5_witness :
    ((runProg (.block .judgement [] (nestBlocks [(BlockClass.context, []), (BlockClass.test, [])]
        (.raiseExc ⟨ErrorType.wrong, "wrong"⟩ (some RecoverClass.judgement) [])))).1.filter
      isEscalateEvent).length = 1 ∧
    (runProg (.block .judgement [] (nestBlocks [(BlockClass.context, []), (BlockClass.test, [])]
        (.raiseExc ⟨ErrorType.wrong, "wrong"⟩ (some RecoverClass.judgement) [])))).1.filter
      isCloseEvent =
      [Event.close "test"
         [("status", Value.status ⟨ErrorType.wrong, "wrong"⟩), ("accepted", Value.bool false)],
       Event.close "context" [("accepted", Value.bool false)],
       Event.close "judgement"
         [("status", Value.status ⟨ErrorType.wrong, "wrong"⟩),
          ("accepted", Value.bool false)]] :=
  C5_explicit_recover_updates_every_level .judgement [] [(BlockClass.context, []),
    (BlockClass.test, [])] ⟨ErrorType.wrong, "wrong"⟩ RecoverClass.judgement []
    (by decide) (by decide)

theorem handleBase_block (b : Block) (e : DodonaException) : (handleBase b e).block = b := by
  unfold handleBase
  dsimp
  split <;> rfl

/-- C6: whenever a with-accepted block (any instance of
`DodonaCommandWithAccepted`) handles a failure signal, the derived
`accepted` close field is set, and it is true iff the signal's status enum is
one of the two correct variants (`CORRECT`, `CORRECT_ANSWER`); for every
other outcome it is false. -/
theorem C6_accepted_iff_correct (b : Block) (e : DodonaException)
    (h : isInstance b.cls RecoverClass.withAccepted = true) :
    lookupField (handleDodonaException b e).block.close_args "accepted"
      = some (Value.bool (acceptedOf e.status)) ∧
    (acceptedOf e.status = true ↔
      (e.status.enum = ErrorType.correct ∨ e.status.enum = ErrorType.correct_answer)) := by
  refine ⟨?_, ?_⟩
  · rcases b with ⟨cls, sa, ca⟩
    cases cls
    case tab => simp [isInstance] at h
    case message => simp [isInstance] at h
    case annot => simp [isInstance] at h
    all_goals
      simp [handleDodonaException, handlerLevel, handleWithStatus, handleWithAccepted,
        handleBase_block, acceptedOf, lookupField_setField_self]
  · unfold acceptedOf
    simp [Bool.or_eq_true, beq_iff_eq]

theorem C6_witness :
    lookupField (handleDodonaException (mkBlock .context [])
        (mkException ⟨ErrorType.correct, "correct"⟩ none [])).block.close_args "accepted"
      = some (Value.bool true) ∧
    (acceptedOf ⟨ErrorType.correct, "correct"⟩ = true ↔
      ((⟨ErrorType.correct, "correct"⟩ : Status).enum = ErrorType.correct ∨
       (⟨ErrorType.correct, "correct"⟩ : Status).enum = ErrorType.correct_answer)) :=
  C6_accepted_iff_correct (mkBlock .context [])
    (mkException ⟨ErrorType.correct, "correct"⟩ none []) (by decide)

theorem startMsg_mkBlock_append (c : BlockClass) (a : Fields) :
    isAppendEvent (startMsg (mkBlock c a)) = (c == BlockClass.message) := by
  cases c <;> rfl

theorem filter_startsOf_appendEvent (ws : List (BlockClass × Fields))
    (h : ∀ w ∈ ws, w.1 ≠ BlockClass.message) :
    (startsOf ws).filter isAppendEvent = [] := by
  induction ws with
  | nil => rfl
  | cons w ws ih =>
      obtain ⟨c, a⟩ := w
      have hc : isAppendEvent (startMsg (mkBlock c a)) = false := by
        rw [startMsg_mkBlock_append]
        exact beq_eq_false_iff_ne.mpr (h (c, a) (by simp))
      simp [startsOf, List.filter_cons, hc, ih (fun w hw => h w (by simp [hw]))]

theorem noteEvsOf_mkException_ne (st : Status) (rec : Option RecoverClass) (kw : Fields)
    (h : kw ≠ []) :
    noteEvsOf (mkException st rec kw) = [Event.appendMessage [("message", Value.obj kw)]] := by
  unfold noteEvsOf mkException
  rcases kw with _ | ⟨p, kw'⟩
  · exact absurd rfl h
  · simp [Message.init, mkBlock, startMsg]

/-- C7: a failure signal carrying an attached note (nonempty kwargs), raised
under non-Root, non-Note wrapper blocks inside a Root block it recovers at,
emits exactly one `append-message` record in the whole run, and that record
appears before every `close-*` record — it is printed by the innermost
enclosing block's handler before any block above the raise site closes; the
note is stripped from the signal, so no enclosing block re-emits it. -/
theorem C7_note_emitted_once_innermost (margs : Fields) (ws : List (BlockClass × Fields))
    (st : Status) (kw : Fields) (hkw : kw ≠ [])
    (hws : ∀ w ∈ ws, w.1 ≠ BlockClass.judgement ∧ w.1 ≠ BlockClass.message) :
    (runProg (.block .judgement margs (nestBlocks ws (.raiseExc st none kw)))).1.filter
      isAppendEvent = [Event.appendMessage [("message", Value.obj kw)]] ∧
    ∃ pre post,
      (runProg (.block .judgement margs (nestBlocks ws (.raiseExc st none kw)))).1 =
        pre ++ Event.appendMessage [("message", Value.obj kw)] :: post ∧
      pre.filter isCloseEvent = [] := by
  have hws' : ∀ w ∈ ws, isInstance w.1 (mkException st none kw).recover_at = false := by
    intro w hw
    show (w.1 == BlockClass.judgement) = false
    exact beq_eq_false_iff_ne.mpr (hws w hw).1
  have hm : isInstance BlockClass.judgement (mkException st none kw).recover_at = true := rfl
  have hnms : ∀ w ∈ ws, w.1 ≠ BlockClass.message := fun w hw => (hws w hw).2
  have hnote := noteEvsOf_mkException_ne st none kw hkw
  rw [runProg_root BlockClass.judgement margs ws st none kw hws' hm, hnote]
  rcases ws with _ | ⟨w0, ws0⟩
  · constructor
    · simp [startsOf, closesOf, List.filter_cons, List.filter_append,
        show isAppendEvent (startMsg (mkBlock BlockClass.judgement margs)) = false from rfl,
        show isAppendEvent (Event.appendMessage [("message", Value.obj kw)]) = true from rfl,
        filter_closeEventsAfter_append]
    · refine ⟨[startMsg (mkBlock BlockClass.judgement margs)],
        closeEventsAfter BlockClass.judgement st, ?_, ?_⟩
      · simp [startsOf, closesOf]
      · simp [List.filter_cons, startMsg_not_close]
  · constructor
    · simp [List.filter_cons, List.filter_append,
        show isAppendEvent (startMsg (mkBlock BlockClass.judgement margs)) = false from rfl,
        show isAppendEvent (Event.appendMessage [("message", Value.obj kw)]) = true from rfl,
        filter_startsOf_appendEvent (w0 :: ws0) hnms, filter_closesOf_append,
        filter_closeEventsAfter_append]
    · refine ⟨startMsg (mkBlock BlockClass.judgement margs) :: startsOf (w0 :: ws0),
        closesOf (w0 :: ws0) st ++ closeEventsAfter BlockClass.judgement st, ?_, ?_⟩
      · simp [List.append_assoc]
      · simp [List.filter_cons, startMsg_not_close, filter_startsOf_close]

theorem C7_witness :
    (runProg (.block .judgement [] (nestBlocks [(BlockClass.tab, [])]
        (.raiseExc ⟨ErrorType.wrong, "wrong"⟩ none
          [("description", Value.str "oops")])))).1.filter isAppendEvent =
      [Event.appendMessage [("message", Value.obj [("description", Value.str "oops")])]] ∧
    ∃ pre post,
      (runProg (.block .judgement [] (nestBlocks [(BlockClass.tab, [])]
          (.raiseExc ⟨ErrorType.wrong, "wrong"⟩ none
            [("description", Value.str "oops")])))).1 =
        pre ++ Event.appendMessage
          [("message", Value.obj [("description", Value.str "oops")])] :: post ∧
      pre.filter isCloseEvent = [] :=
  C7_note_emitted_once_innermost [] [(BlockClass.tab, [])] ⟨ErrorType.wrong, "wrong"⟩
    [("description", Value.str "oops")] (List.cons_ne_nil _ _) (by decide)

/-- C9: a propagating failure signal is claimed by a block — handler returns
`True` and `__exit__` stops the propagation — if and only if the block's
class is an instance (the class itself or any subclass) of the signal's
`recover_at` class, not only on exact class equality; in particular a signal
whose recover point is the abstract `DodonaCommandWithStatus` base is
claimed by a `Test` or `Judgement` block but not by a `Context` block. -/
theorem C9_claimed_iff_isinstance (b : Block) (e : DodonaException) :
    ((handleDodonaException b e).handled = isInstance b.cls e.recover_at) ∧
    ((exitBlock b (some (.dodona e))).2 = none ↔ isInstance b.cls e.recover_at = true) ∧
    isInstance BlockClass.test RecoverClass.withStatus = true ∧
    isInstance BlockClass.judgement RecoverClass.withStatus = true ∧
    isInstance BlockClass.context RecoverClass.withStatus = false := by
  refine ⟨handle_handled b e, ?_, rfl, rfl, rfl⟩
  rw [exitBlock_dodona]
  dsimp only
  rw [handle_handled]
  by_cases h : isInstance b.cls e.recover_at = true
  · simp [h]
  · simp [h]

/-- C10: constructing a `TestCase` or `Message` block with exactly one
positional argument makes that argument the start record's
`description` / `message` field; with any other number of positional
arguments (zero, or two and more — which are silently discarded) the field
is the keyword-argument mapping, the empty mapping when no keyword
arguments are given; the field is always present in the start record. -/
theorem C10_single_positional_argument (args : List Value) (kwargs : Fields) :
    startMsg (TestCase.init args kwargs) =
      Event.start "testcase"
        [("description", (match args with | [a] => a | _ => Value.obj kwargs))] ∧
    startMsg (Message.init args kwargs) =
      Event.appendMessage
        [("message", (match args with | [a] => a | _ => Value.obj kwargs))] := by
  rcases args with _ | ⟨a, _ | ⟨b, rest⟩⟩ <;> exact ⟨rfl, rfl⟩

theorem filter_handle_events_close (b : Block) (e : DodonaException) :
    ((handleDodonaException b e).events).filter isCloseEvent = [] := by
  rw [handle_events]
  simp only [List.filter_append, filter_noteEvsOf_close, List.nil_append]
  split <;> rfl

theorem exitBlock_events_shape (b : Block) (exc : Option Exc) :
    ∃ mid b', (exitBlock b exc).1 = mid ++ closeEvents b' ∧ b'.cls = b.cls ∧
      mid.filter isCloseEvent = [] := by
  cases exc with
  | none => exact ⟨[], b, by simp [exitBlock_none], rfl, rfl⟩
  | some exc' =>
      cases exc' with
      | other => exact ⟨[], b, by simp [exitBlock_other], rfl, rfl⟩
      | dodona e =>
          exact ⟨(handleDodonaException b e).events, (handleDodonaException b e).block,
            by rw [exitBlock_dodona], handle_block_cls b e, filter_handle_events_close b e⟩

theorem closeEvents_of_cls (b : Block) :
    closeEvents b =
      if b.cls = BlockClass.message ∨ b.cls = BlockClass.annot then []
      else [Event.close (className b.cls) b.close_args] := by
  rcases b with ⟨c, sa, ca⟩
  cases c <;> simp [closeEvents, closeMsg, className]

/-- C2 counterexample: the claim says a Note (`Message`) block's exit "emits
nothing at all", but when a failure signal carrying an attached note exits
through a `Message` block, the exit prints the note's `append-message`
record (the base handler runs before the `None` close message). -/
theorem C2_counterexample :
    (exitBlock ⟨BlockClass.message, [("message", Value.str "m")], []⟩
      (some (.dodona (mkException ⟨ErrorType.wrong, "wrong"⟩ none
        [("description", Value.str "oops")])))).1 =
      [Event.appendMessage [("message", Value.obj [("description", Value.str "oops")])]] ∧
    (exitBlock ⟨BlockClass.message, [("message", Value.str "m")], []⟩
      (some (.dodona (mkException ⟨ErrorType.wrong, "wrong"⟩ none
        [("description", Value.str "oops")])))).1 ≠ [] :=
  ⟨rfl, List.cons_ne_nil _ _⟩

/-- C2 amended: on every exit path (normal exit, a failure signal, or any
other exception raised in the body), every block kind except Note
(`Message`) and Annotation emits exactly one `close-<kind>` record, as the
last record of its exit; Note and Annotation emit no close record (their
exit prints nothing except, when a failure signal exits through them, the
records of the signal's handling: its attached note and possibly an
`escalate-status` record). -/
theorem C2_amended_close_event_on_every_exit (cls : BlockClass) (sa ca : Fields)
    (exc : Option Exc) :
    if cls = BlockClass.message ∨ cls = BlockClass.annot then
      (exitBlock ⟨cls, sa, ca⟩ exc).1.filter isCloseEvent = []
    else
      ∃ fields,
        (exitBlock ⟨cls, sa, ca⟩ exc).1.filter isCloseEvent
          = [Event.close (className cls) fields] ∧
        (exitBlock ⟨cls, sa, ca⟩ exc).1.getLast? = some (Event.close (className cls) fields) := by
  obtain ⟨mid, b', hsplit, hcls, hmid⟩ := exitBlock_events_shape ⟨cls, sa, ca⟩ exc
  dsimp only at hcls
  rw [hsplit, closeEvents_of_cls, hcls]
  by_cases hmsg : cls = BlockClass.message ∨ cls = BlockClass.annot
  · rw [if_pos hmsg, if_pos hmsg]
    simp [List.filter_append, hmid]
  · rw [if_neg hmsg, if_neg hmsg]
    refine ⟨b'.close_args, ?_, ?_⟩
    · simp [List.filter_append, hmid,
        show isCloseEvent (Event.close (className cls) b'.close_args) = true from rfl]
    · exact List.getLast?_concat mid

theorem sum_map_add (l : List Nat) (f g : Nat → Nat) :
    (l.map (fun v => f v + g v)).sum = (l.map f).sum + (l.map g).sum := by
  induction l with
  | nil => rfl
  | cons a l ih =>
      simp only [List.map_cons, List.sum_cons, ih]
      omega

theorem sum_indicator_range (m p : Nat) :
    ((List.range m).map (fun v => if p = v then 1 else 0)).sum = if p < m then 1 else 0 := by
  induction m with
  | zero => simp
  | succ m ih =>
      rw [List.range_succ, List.map_append, List.sum_append, ih]
      simp only [List.map_cons, List.map_nil, List.sum_cons, List.sum_nil]
      split_ifs <;> omega

theorem sum_counts (m : Nat) (l : List Nat) :
    ((List.range m).map (fun v => (l.filter (fun p => p == v)).length)).sum
      = (l.filter (fun p => p < m)).length := by
  induction l with
  | nil => simp
  | cons p l ih =>
      have hcount : ∀ v, ((p :: l).filter (fun q => q == v)).length
          = (if p = v then 1 else 0) + (l.filter (fun q => q == v)).length := by
        intro v
        by_cases h : p = v
        · simp [List.filter_cons, h]
          omega
        · simp [List.filter_cons, h]
      rw [List.map_congr_left (fun v _ => hcount v), sum_map_add, sum_indicator_range, ih]
      by_cases hp : p < m
      · simp [List.filter_cons, hp]
        omega
      · simp [List.filter_cons, hp]

/-- The sum of a PIL histogram counts the in-range samples of the image: it
is the number of pixel-band samples, independent of the sample values. -/
theorem histogram_sum (image : RasterImage) :
    (histogram image).sum = (image.filter (fun p => p < 256)).length :=
  sum_counts 256 image

theorem difference_self (image : RasterImage) :
    difference image image = List.replicate image.length 0 := by
  induction image with
  | nil => rfl
  | cons p l ih =>
      simp [difference, List.zipWith] at ih ⊢
      simp [Nat.sub_self, List.replicate_succ, ih]

set_option maxRecDepth 8000 in
/-- C8: `diff_images` is NOT zero on pixel-identical images: it sums the
histogram of the difference image, which is the (constant) number of
in-range samples, not a measure of the differences.  On the identical
one-sample images `[0]` and `[0]` it returns `1`, not `0`; in general it
returns the sample count of the difference image, and on any image compared
with itself it returns the number of samples of the image. -/
theorem C8_diff_images_constant_bug :
    diff_images [0] [0] = 1 ∧ (1 : Nat) ≠ 0 ∧
    (∀ image1 image2 : RasterImage,
      diff_images image1 image2
        = ((difference image1 image2).filter (fun p => p < 256)).length) ∧
    (∀ image : RasterImage, diff_images image image = image.length) := by
  refine ⟨by decide, by decide, fun i1 i2 => histogram_sum (difference i1 i2), fun image => ?_⟩
  rw [diff_images, histogram_sum, difference_self]
  induction image.length with
  | zero => rfl
  | succ n ih => simp [List.replicate_succ, List.filter_cons, ih]
